import Mathlib

/-!
Verification of the original (non-delegated) logic of
`monaifbs/src/train/monai_dynunet_training.py`:

* `create_data_list_of_dictionaries` — parsing of the two-column file list
  (lines split on a comma into an image path and a label path);
* `choose_loss_function` — selection of one of four loss configurations;
* the kernel/stride schedule derivation loop inside `run_training`;
* the deep-supervision loss of `DynUNetTrainer._iteration`;
* the 4-way flip ensemble of `DynUNetEvaluator._iteration`;
* the optional-key defaults applied to the configuration dictionary.

Each Python fragment is shallowly embedded as an executable Lean definition;
floating point arithmetic is modelled with exact rationals.
-/

set_option autoImplicit false

namespace MonaiFbs

/-! ## File-list parsing (`create_data_list_of_dictionaries`, lines 81-111)

A line of the input file is modelled as a `List Char`; the file as the list of
its lines; `os.path.isfile` as a boolean oracle on paths. -/

/-- Python `line.rstrip('\n') if '\n' in line else line`: drop every trailing
newline character when the line contains a newline at all. -/
def stripNL (l : List Char) : List Char :=
  if '\n' ∈ l then (l.reverse.dropWhile (fun c => c == '\n')).reverse else l

/-- Python `line.split(',')`: split a string at every comma; `n` commas give
`n + 1` fields, an empty string gives one empty field. -/
def splitComma : List Char → List (List Char)
  | [] => [[]]
  | c :: rest =>
    if c = ',' then [] :: splitComma rest
    else
      match splitComma rest with
      | [] => [[c]]
      | f :: fs => (c :: f) :: fs

/-- Outcome of `create_data_list_of_dictionaries`: either the list of
`{"image": f, "label": s}` dictionaries, or process termination through the
bare `exit()` call on a malformed line, or an uncaught `FileNotFoundError`
naming both candidate paths. -/
inductive FileListResult where
  | ok (pairs : List (List Char × List Char))
  | exited
  | fileNotFound (f s : List Char)
  deriving DecidableEq

/-- Shallow embedding of `create_data_list_of_dictionaries` (lines 91-111):
for each line, strip trailing newlines, split on commas; a field count other
than two makes the tuple unpacking raise `ValueError`, caught and answered by
`exit()`; otherwise the two paths are checked with `os.path.isfile` and either
appended to the accumulated list or reported through `FileNotFoundError`. -/
def create_data_list_of_dictionaries (isfile : List Char → Bool) :
    List (List Char) → FileListResult
  | [] => .ok []
  | line :: rest =>
    match splitComma (stripNL line) with
    | [current_f, current_s] =>
      if isfile current_f && isfile current_s then
        match create_data_list_of_dictionaries isfile rest with
        | .ok acc => .ok ((current_f, current_s) :: acc)
        | e => e
      else .fileNotFound current_f current_s
    | _ => .exited

/-- The image/label pair a well-formed line denotes: the two comma-separated
fields after stripping trailing newlines. -/
def linePair (l : List Char) : List Char × List Char :=
  ((splitComma (stripNL l)).headD [], (splitComma (stripNL l)).getD 1 [])

/-- A line that parses and whose two paths both exist. -/
def GoodLine (isfile : List Char → Bool) (l : List Char) : Prop :=
  ∃ f s, splitComma (stripNL l) = [f, s] ∧ isfile f = true ∧ isfile s = true

/-! ## Configuration dictionary and its optional-key defaults

The YAML configuration is consumed through direct key access plus a few
`if key in dict` presence checks. Presence of an optional key is modelled with
an outer `Option`; for keys whose value may itself be `None` (`manual_seed`,
`model_to_load`) the value is a further `Option`. File-system paths are
modelled as lists of components, so that `os.path.join` is list append. -/

structure TrainingConfig where
  seg_labels : Option (List Int)
  manual_seed : Option (Option Int)
  model_to_load : Option (Option (List String))
  pow_dice : Option ℚ
  loss_type : String

structure OutputConfig where
  cache_dir : Option (List String)

structure Config where
  training : TrainingConfig
  output : OutputConfig

/-- Lines 220-223: `seg_labels` defaults to `[1]` when the key is absent. -/
def seg_labels_of (c : Config) : List Int :=
  match c.training.seg_labels with
  | some v => v
  | none => [1]

/-- Line 224: `nr_out_channels = len(seg_labels)`. -/
def nr_out_channels_of (c : Config) : ℕ := (seg_labels_of c).length

/-- Lines 251-254: the seed is the value of `manual_seed` when the key is
present and its value is not `None`, else `None`. -/
def seed_of (c : Config) : Option Int :=
  match c.training.manual_seed with
  | some (some s) => some s
  | _ => none

/-- Lines 255-257: `set_determinism` runs exactly when the seed is not `None`. -/
def set_determinism_called (c : Config) : Bool := (seed_of c).isSome

/-- Lines 232-239: `model_to_load` is kept when the key is present and not
`None`, else it is `None`. -/
def model_to_load_of (c : Config) : Option (List String) :=
  match c.training.model_to_load with
  | some (some m) => some m
  | _ => none

/-- Lines 530-531: a `CheckpointLoader` is attached exactly when
`model_to_load` is not `None`. -/
def checkpoint_loader_attached (c : Config) : Bool := (model_to_load_of c).isSome

/-- Lines 141-143 of `choose_loss_function`: `pow = 1.0` unless the key
`pow_dice` is present. -/
def pow_of (c : Config) : ℚ :=
  match c.training.pow_dice with
  | some p => p
  | none => 1

/-- Lines 267-270: the persistent cache directory is the configured
`cache_dir` when present, else the `persistent_cache` subdirectory of the
timestamped output directory. -/
def out_cache_dir_of (c : Config) (out_model_dir : List String) : List String :=
  match c.output.cache_dir with
  | some d => d
  | none => out_model_dir ++ ["persistent_cache"]

/-! ## Loss selection (`choose_loss_function`, lines 114-182)

The two loss classes live in `monaifbs/src/utils/custom_losses.py`, outside
the file under verification; here a loss function is represented by the
constructor called and the arguments it receives at the call site. -/

/-- A constructed loss object: which class was instantiated and with which
arguments. `diceCE` records `(batch_version, pow)`; `diceLossExtended` records
`(sigmoid, softmax, smooth_num, smooth_den, squared_pred, batch_version)`. -/
inductive LossFn where
  | diceCE (batch_version : Bool) (pow : ℚ)
  | diceLossExtended (sigmoid softmax : Bool) (smooth_num smooth_den : ℚ)
      (squared_pred batch_version : Bool)
  deriving DecidableEq

/-- Shallow embedding of `choose_loss_function` (lines 136-182). The
`DiceCELoss` calls pass no `batch_version` for `"dynDiceCELoss"`; the class
(not under `src/`) defaults it to `False`, as the code's own log line
`"Using DiceCELoss with batch_version=False"` records, so the constructed
value carries `false` there. -/
def choose_loss_function (number_out_channels : ℕ) (config_dict : Config) :
    Except String LossFn :=
  let do_sigmoid : Bool := if number_out_channels > 1 then false else true
  let do_softmax : Bool := if number_out_channels > 1 then true else false
  let pow : ℚ := pow_of config_dict
  let loss_type := config_dict.training.loss_type
  if loss_type = "dynDiceCELoss" then
    .ok (.diceCE false pow)
  else if loss_type = "dynDiceCELoss_batch" then
    .ok (.diceCE true pow)
  else if loss_type = "Batch_Dice" then
    .ok (.diceLossExtended do_sigmoid do_softmax (1 / 100000) (1 / 100000) false true)
  else if loss_type = "Dice_Only" then
    .ok (.diceLossExtended do_sigmoid do_softmax 0 0 false false)
  else
    .error "Unrecognized loss type"

/-- Whether a constructed loss applies a sigmoid activation to a prediction
with `c` channels. For `DiceLossExtended` this is the `sigmoid` flag passed at
construction. Modelled from the spec: `DiceCELoss` (custom_losses.py, not
under `src/`) receives no activation flags; per the specification each loss
configuration parameterizes "sigmoid-vs-softmax activation based on channel
count", so it applies sigmoid unless the channel count exceeds one. -/
def usesSigmoid : LossFn → ℕ → Bool
  | .diceCE _ _, c => !(decide (1 < c))
  | .diceLossExtended sg _ _ _ _ _, _ => sg

/-- Whether a constructed loss applies a softmax activation to a prediction
with `c` channels; see `usesSigmoid`. Modelled from the spec for the
`DiceCELoss` case: softmax exactly when the channel count exceeds one. -/
def usesSoftmax : LossFn → ℕ → Bool
  | .diceCE _ _, c => decide (1 < c)
  | .diceLossExtended _ sm _ _ _ _, _ => sm

/-! ## Kernel/stride schedule derivation (`run_training`, lines 393-408)

Python floats are modelled as exact rationals; strides and kernels are lists
of naturals. The unbounded `while True` loop is embedded with explicit fuel,
returning `none` when the fuel runs out, so that termination is the statement
that some fuel suffices. -/

/-- Python `min` over a non-empty list (`min(spacings)`); `0` on `[]`. -/
def listMin : List ℚ → ℚ
  | [] => 0
  | x :: xs => xs.foldl min x

/-- Line 399: `stride = [2 if ratio <= 2 and size >= 8 else 1 for (ratio, size)
in zip(spacing_ratio, sizes)]` with `spacing_ratio = [sp / min(spacings) for sp
in spacings]` (line 398). -/
def strideOf (spacings sizes : List ℚ) : List ℕ :=
  ((spacings.map (fun sp => sp / listMin spacings)).zip sizes).map
    (fun rs => if rs.1 ≤ 2 ∧ rs.2 ≥ 8 then 2 else 1)

/-- Line 400: `kernel = [3 if ratio <= 2 else 1 for ratio in spacing_ratio]`. -/
def kernelOf (spacings : List ℚ) : List ℕ :=
  (spacings.map (fun sp => sp / listMin spacings)).map
    (fun r => if r ≤ 2 then 3 else 1)

/-- The `while True` loop of lines 397-406, with fuel. Each iteration computes
the level's stride and kernel; an all-ones stride breaks out of the loop
(returning the final spacings together with the accumulated lists, the level
that broke excluded); otherwise sizes are divided and spacings multiplied by
the stride and the level is appended. -/
def deriveLoop : ℕ → List ℚ → List ℚ → List (List ℕ) → List (List ℕ) →
    Option (List ℚ × List (List ℕ) × List (List ℕ))
  | 0, _, _, _, _ => none
  | fuel + 1, spacings, sizes, strides, kernels =>
    let stride := strideOf spacings sizes
    let kernel := kernelOf spacings
    if stride.all (fun s => s == 1) then some (spacings, strides, kernels)
    else
      deriveLoop fuel
        (List.zipWith (fun i (j : ℕ) => i * (j : ℚ)) spacings stride)
        (List.zipWith (fun i (j : ℕ) => i / (j : ℚ)) sizes stride)
        (strides ++ [stride]) (kernels ++ [kernel])

/-- Lines 226 and 394-408 of `run_training`: `patch_size = inplane_size + [1]`,
the loop runs on the first two entries of spacing and patch size, and on exit a
stride of all ones is prepended and a kernel of all threes appended. -/
def run_training_schedule (fuel : ℕ) (spacing inplane_size : List ℚ) :
    Option (List (List ℕ) × List (List ℕ)) :=
  let patch_size := inplane_size ++ [1]
  let spacings := spacing.take 2
  let sizes := patch_size.take 2
  (deriveLoop fuel spacings sizes [] []).map
    (fun out => (List.replicate out.1.length 1 :: out.2.1,
                 out.2.2 ++ [List.replicate out.1.length 3]))

/-- The per-level derivation rule exactly as the specification words it, for
two axes: at each level, with the ratio of an axis being its spacing over the
minimum spacing, an axis receives stride 2 if its ratio is at most 2 and its
size at least 8 and stride 1 otherwise, and kernel 3 if its ratio is at most 2
and kernel 1 otherwise; after a level, each size is divided by its stride and
each spacing multiplied by it; the derivation stops at the first level whose
stride is all ones, that level excluded from the recorded lists. -/
inductive SpecSchedule : ℚ → ℚ → ℚ → ℚ → List (List ℕ) → List (List ℕ) → Prop where
  | stop (sp0 sp1 s0 s1 : ℚ) :
      (if sp0 / min sp0 sp1 ≤ 2 ∧ s0 ≥ 8 then (2 : ℕ) else 1) = 1 →
      (if sp1 / min sp0 sp1 ≤ 2 ∧ s1 ≥ 8 then (2 : ℕ) else 1) = 1 →
      SpecSchedule sp0 sp1 s0 s1 [] []
  | level (sp0 sp1 s0 s1 : ℚ) (t0 t1 k0 k1 : ℕ) (st ks : List (List ℕ)) :
      t0 = (if sp0 / min sp0 sp1 ≤ 2 ∧ s0 ≥ 8 then 2 else 1) →
      t1 = (if sp1 / min sp0 sp1 ≤ 2 ∧ s1 ≥ 8 then 2 else 1) →
      k0 = (if sp0 / min sp0 sp1 ≤ 2 then 3 else 1) →
      k1 = (if sp1 / min sp0 sp1 ≤ 2 then 3 else 1) →
      ¬ (t0 = 1 ∧ t1 = 1) →
      SpecSchedule (sp0 * t0) (sp1 * t1) (s0 / t0) (s1 / t1) st ks →
      SpecSchedule sp0 sp1 s0 s1 ([t0, t1] :: st) ([k0, k1] :: ks)

/-! ## Deep-supervision loss (`DynUNetTrainer._iteration`, lines 535-557)

Tensors, the loss function, `interpolate` and shapes are abstract; only the
arithmetic combination performed by `_compute_loss` (lines 539-541) is
concrete. -/

/-- Lines 539-541: `labels = [label] + [interpolate(label, pred.shape[2:]) for
pred in preds[1:]]` followed by `sum([0.5 ** i * self.loss_function(p, l) for
i, (p, l) in enumerate(zip(preds, labels))])`. `interpolate2` stands for
`torch.nn.functional.interpolate` and `shape2` for `pred.shape[2:]`. -/
def compute_loss {T : Type} (lossF : T → T → ℚ) (interpolate2 : T → List ℕ → T)
    (shape2 : T → List ℕ) (preds : List T) (label : T) : ℚ :=
  let labels := label :: (preds.drop 1).map (fun pred => interpolate2 label (shape2 pred))
  (((preds.zip labels).enum).map
    (fun ip => (1 / 2 : ℚ) ^ ip.1 * lossF ip.2.1 ip.2.2)).sum

/-! ## Flip-ensemble evaluation (`DynUNetEvaluator._iteration`, lines 457-481)

A batch tensor is a rational-valued function of indices (batch, channel, i, j);
`torch.flip(x, dims=(2,))` reverses the third index over its extent `n2`, and
similarly for the fourth. The inferer is abstract. -/

/-- A 4-D tensor of rationals, indexed (batch, channel, dim2, dim3). -/
abbrev Tensor4 : Type := ℕ → ℕ → ℕ → ℕ → ℚ

/-- `torch.flip(t, dims=(2,))` for extent `n2` along dimension 2. -/
def flipDim2 (n2 : ℕ) (t : Tensor4) : Tensor4 :=
  fun b c i j => t b c (n2 - 1 - i) j

/-- `torch.flip(t, dims=(3,))` for extent `n3` along dimension 3. -/
def flipDim3 (n3 : ℕ) (t : Tensor4) : Tensor4 :=
  fun b c i j => t b c i (n3 - 1 - j)

/-- `torch.flip(t, dims=(2, 3))`. -/
def flipDim23 (n2 n3 : ℕ) (t : Tensor4) : Tensor4 :=
  fun b c i j => t b c (n2 - 1 - i) (n3 - 1 - j)

/-- Lines 461-471 (`_compute_pred` inside `DynUNetEvaluator._iteration`, the
`amp=False` path taken since the evaluator is built with `amp=False`): infer on
the input and on its three flipped variants, flip each auxiliary prediction
back along the same dimensions, and average the four results. -/
def evaluator_iteration (inferer : Tensor4 → Tensor4) (n2 n3 : ℕ)
    (inputs : Tensor4) : Tensor4 :=
  let flip_inputs_1 := flipDim2 n2 inputs
  let flip_inputs_2 := flipDim3 n3 inputs
  let flip_inputs_3 := flipDim23 n2 n3 inputs
  let pred := inferer inputs
  let flip_pred_1 := flipDim2 n2 (inferer flip_inputs_1)
  let flip_pred_2 := flipDim3 n3 (inferer flip_inputs_2)
  let flip_pred_3 := flipDim23 n2 n3 (inferer flip_inputs_3)
  fun b c i j =>
    (pred b c i j + flip_pred_1 b c i j + flip_pred_2 b c i j + flip_pred_3 b c i j) / 4

/-! ## Lemmas on the file-list parser -/

theorem splitComma_ne_nil (l : List Char) : splitComma l ≠ [] := by
  induction l with
  | nil => simp [splitComma]
  | cons c rest ih =>
    simp only [splitComma]
    split
    · simp
    · cases h : splitComma rest with
      | nil => simp
      | cons f fs => simp

/-- `splitComma` produces one more field than the number of commas. -/
theorem splitComma_length (l : List Char) :
    (splitComma l).length = l.count ',' + 1 := by
  induction l with
  | nil => simp [splitComma]
  | cons c rest ih =>
    simp only [splitComma]
    split
    · rename_i hc
      simp [List.count_cons, hc, ih]
    · rename_i hc
      cases h : splitComma rest with
      | nil => exact absurd h (splitComma_ne_nil rest)
      | cons f fs =>
        rw [h] at ih
        simp only [List.length_cons] at ih ⊢
        simp [List.count_cons, hc, ih]

theorem splitComma_of_one_comma {l : List Char} (h : l.count ',' = 1) :
    ∃ f s, splitComma l = [f, s] := by
  have hlen : (splitComma l).length = 2 := by rw [splitComma_length, h]
  match hs : splitComma l with
  | [] => rw [hs] at hlen; simp at hlen
  | [a] => rw [hs] at hlen; simp at hlen
  | [a, b] => exact ⟨a, b, rfl⟩
  | a :: b :: c :: t => rw [hs] at hlen; simp at hlen

/-- Claim C3: on a file whose every line, after stripping trailing newlines,
has exactly one comma and whose two comma-separated paths both exist,
`create_data_list_of_dictionaries` returns exactly one image/label pair per
line, in file order. -/
theorem create_data_list_well_formed
    (isfile : List Char → Bool) (lines : List (List Char))
    (h : ∀ l ∈ lines, (stripNL l).count ',' = 1 ∧
        isfile (linePair l).1 = true ∧ isfile (linePair l).2 = true) :
    create_data_list_of_dictionaries isfile lines = .ok (lines.map linePair) := by
  induction lines with
  | nil => rfl
  | cons l rest ih =>
    obtain ⟨hc, hf, hs⟩ := h l (List.mem_cons_self l rest)
    obtain ⟨f, s, hsplit⟩ := splitComma_of_one_comma hc
    have hpair : linePair l = (f, s) := by simp [linePair, hsplit]
    rw [hpair] at hf hs
    simp only [create_data_list_of_dictionaries, hsplit, hf, hs, Bool.and_self,
      if_pos]
    rw [ih (fun l' hl' => h l' (List.mem_cons_of_mem l hl'))]
    simp [hpair]

/-- Claim C3 witness: a concrete one-line file with both paths existing. -/
theorem create_data_list_well_formed_witness :
    create_data_list_of_dictionaries (fun _ => true) [['a', ',', 'b']] =
      .ok ([['a', ',', 'b']].map linePair) :=
  create_data_list_well_formed (fun _ => true) [['a', ',', 'b']] (by decide)

/-- Claim C4: reaching a line that does not split on the comma into exactly
two fields (its comma count is not one) makes the function answer the
`ValueError` with a direct `exit()`, terminating the process rather than
propagating an exception; reaching a line that splits into two fields of which
at least one does not name an existing file makes it raise an uncaught
`FileNotFoundError` carrying both paths. -/
theorem create_data_list_failure_paths
    (isfile : List Char → Bool) (pre : List (List Char)) (l : List Char)
    (post : List (List Char)) (hpre : ∀ l' ∈ pre, GoodLine isfile l') :
    ((stripNL l).count ',' ≠ 1 →
        create_data_list_of_dictionaries isfile (pre ++ l :: post) = .exited)
    ∧ (∀ f s, splitComma (stripNL l) = [f, s] →
        (isfile f = false ∨ isfile s = false) →
        create_data_list_of_dictionaries isfile (pre ++ l :: post) =
          .fileNotFound f s) := by
  induction pre with
  | nil =>
    constructor
    · intro hc
      have hlen := splitComma_length (stripNL l)
      match hs : splitComma (stripNL l) with
      | [] => exact absurd hs (splitComma_ne_nil _)
      | [a] => simp [create_data_list_of_dictionaries, hs]
      | [a, b] =>
        rw [hs] at hlen
        simp only [List.length_cons, List.length_nil] at hlen
        omega
      | a :: b :: c :: t => simp [create_data_list_of_dictionaries, hs]
    · intro f s hsplit hbad
      have : (isfile f && isfile s) = false := by
        rcases hbad with h | h <;> simp [h]
      simp [create_data_list_of_dictionaries, hsplit, this]
  | cons p pre' ih =>
    obtain ⟨f', s', hsplit', hf', hs'⟩ := hpre p (List.mem_cons_self p pre')
    have ihok := ih (fun l' hl' => hpre l' (List.mem_cons_of_mem p hl'))
    constructor
    · intro hc
      have hrec := ihok.1 hc
      simp only [List.cons_append, create_data_list_of_dictionaries, hsplit',
        hf', hs', Bool.and_self, if_pos, List.append_eq, hrec]
    · intro f s hsplit hbad
      have hrec := ihok.2 f s hsplit hbad
      simp only [List.cons_append, create_data_list_of_dictionaries, hsplit',
        hf', hs', Bool.and_self, if_pos, List.append_eq, hrec]

/-- Claim C4 witness: a commaless first line exits; a one-comma line whose
second path is missing raises the file-not-found error. -/
theorem create_data_list_failure_paths_witness :
    create_data_list_of_dictionaries (fun p => p == ['a']) [['x']] = .exited
    ∧ create_data_list_of_dictionaries (fun p => p == ['a'])
        [['a', ',', 'b']] = .fileNotFound ['a'] ['b'] :=
  ⟨(create_data_list_failure_paths (fun p => p == ['a']) [] ['x'] []
      (by simp)).1 (by decide),
   (create_data_list_failure_paths (fun p => p == ['a']) [] ['a', ',', 'b'] []
      (by simp)).2 ['a'] ['b'] (by decide) (Or.inr (by decide))⟩

/-! ## Lemmas on loss selection and configuration defaults -/

/-- Claim C6: `choose_loss_function` succeeds exactly on the four recognized
loss-type strings and raises the `IOError` on every other string. -/
theorem choose_loss_function_ok_iff (n : ℕ) (cfg : Config) :
    (∃ lf, choose_loss_function n cfg = .ok lf) ↔
      (cfg.training.loss_type = "dynDiceCELoss" ∨
       cfg.training.loss_type = "dynDiceCELoss_batch" ∨
       cfg.training.loss_type = "Batch_Dice" ∨
       cfg.training.loss_type = "Dice_Only") := by
  simp only [choose_loss_function]
  split_ifs with h1 h2 h3 h4 <;> simp_all

/-- Claim C6 witness: the first recognized string yields a loss function. -/
theorem choose_loss_function_ok_iff_witness :
    ∃ lf, choose_loss_function 1
        ⟨⟨none, none, none, none, "dynDiceCELoss"⟩, ⟨none⟩⟩ = .ok lf :=
  (choose_loss_function_ok_iff 1
      ⟨⟨none, none, none, none, "dynDiceCELoss"⟩, ⟨none⟩⟩).mpr (Or.inl rfl)

/-- Claim C9: the optional-key defaults — `seg_labels` absent gives `[1]` and
one output channel; `manual_seed` absent or `None` sets no determinism seed;
`model_to_load` absent or `None` loads no checkpoint; `pow_dice` absent gives
`pow = 1.0` in `choose_loss_function`; `cache_dir` absent places the
persistent cache in the `persistent_cache` subdirectory of the timestamped
output directory. -/
theorem config_optional_defaults (c : Config) (out_model_dir : List String) :
    (c.training.seg_labels = none →
        seg_labels_of c = [1] ∧ nr_out_channels_of c = 1)
    ∧ ((c.training.manual_seed = none ∨ c.training.manual_seed = some none) →
        set_determinism_called c = false)
    ∧ ((c.training.model_to_load = none ∨ c.training.model_to_load = some none) →
        checkpoint_loader_attached c = false)
    ∧ (c.training.pow_dice = none → pow_of c = 1)
    ∧ (c.output.cache_dir = none →
        out_cache_dir_of c out_model_dir = out_model_dir ++ ["persistent_cache"]) := by
  refine ⟨?_, ?_, ?_, ?_, ?_⟩
  · intro h; constructor <;> simp [seg_labels_of, nr_out_channels_of, h]
  · rintro (h | h) <;> simp [set_determinism_called, seed_of, h]
  · rintro (h | h) <;> simp [checkpoint_loader_attached, model_to_load_of, h]
  · intro h; simp [pow_of, h]
  · intro h; simp [out_cache_dir_of, h]

/-- Claim C9 witness: a configuration with every optional key absent. -/
theorem config_optional_defaults_witness :
    seg_labels_of ⟨⟨none, none, none, none, ""⟩, ⟨none⟩⟩ = [1]
    ∧ nr_out_channels_of ⟨⟨none, none, none, none, ""⟩, ⟨none⟩⟩ = 1
    ∧ set_determinism_called ⟨⟨none, none, none, none, ""⟩, ⟨none⟩⟩ = false
    ∧ checkpoint_loader_attached ⟨⟨none, none, none, none, ""⟩, ⟨none⟩⟩ = false
    ∧ pow_of ⟨⟨none, none, none, none, ""⟩, ⟨none⟩⟩ = 1
    ∧ out_cache_dir_of ⟨⟨none, none, none, none, ""⟩, ⟨none⟩⟩ ["out"] =
        ["out", "persistent_cache"] := by
  have h := config_optional_defaults ⟨⟨none, none, none, none, ""⟩, ⟨none⟩⟩ ["out"]
  exact ⟨(h.1 rfl).1, (h.1 rfl).2, h.2.1 (Or.inl rfl), h.2.2.1 (Or.inl rfl),
    h.2.2.2.1 rfl, h.2.2.2.2 rfl⟩

/-- Claim C5: each recognized loss-type string yields its documented
configuration — `"dynDiceCELoss"` a non-batch `DiceCELoss`,
`"dynDiceCELoss_batch"` a batch `DiceCELoss` (both with the configured
`pow_dice`), `"Batch_Dice"` a `DiceLossExtended` with smooth terms `1e-5` and
batch version, `"Dice_Only"` a `DiceLossExtended` with smooth terms `0` and no
batch version (both without squared predictions); the four configurations are
pairwise distinct, and each uses a sigmoid activation exactly when the channel
count is `1` and a softmax exactly when it exceeds `1`. -/
theorem choose_loss_function_configurations (n : ℕ) (cfg : Config) (hn : 1 ≤ n) :
    (cfg.training.loss_type = "dynDiceCELoss" →
        choose_loss_function n cfg = .ok (.diceCE false (pow_of cfg)))
    ∧ (cfg.training.loss_type = "dynDiceCELoss_batch" →
        choose_loss_function n cfg = .ok (.diceCE true (pow_of cfg)))
    ∧ (cfg.training.loss_type = "Batch_Dice" →
        choose_loss_function n cfg = .ok (.diceLossExtended (decide (n = 1))
          (decide (1 < n)) (1 / 100000) (1 / 100000) false true))
    ∧ (cfg.training.loss_type = "Dice_Only" →
        choose_loss_function n cfg = .ok (.diceLossExtended (decide (n = 1))
          (decide (1 < n)) 0 0 false false))
    ∧ List.Pairwise (fun a b => a ≠ b)
        [LossFn.diceCE false (pow_of cfg), LossFn.diceCE true (pow_of cfg),
         LossFn.diceLossExtended (decide (n = 1)) (decide (1 < n))
           (1 / 100000) (1 / 100000) false true,
         LossFn.diceLossExtended (decide (n = 1)) (decide (1 < n)) 0 0 false false]
    ∧ (∀ lf ∈ [LossFn.diceCE false (pow_of cfg), LossFn.diceCE true (pow_of cfg),
         LossFn.diceLossExtended (decide (n = 1)) (decide (1 < n))
           (1 / 100000) (1 / 100000) false true,
         LossFn.diceLossExtended (decide (n = 1)) (decide (1 < n)) 0 0 false false],
        usesSigmoid lf n = decide (n = 1) ∧ usesSoftmax lf n = decide (1 < n)) := by
  have hsig : (if n > 1 then false else true) = decide (n = 1) := by
    by_cases h : 1 < n <;> simp [h] <;> omega
  have hsoft : (if n > 1 then true else false) = decide (1 < n) := by
    by_cases h : 1 < n <;> simp [h]
  refine ⟨?_, ?_, ?_, ?_, ?_, ?_⟩
  · intro h; simp [choose_loss_function, h]
  · intro h; rw [show cfg.training.loss_type = cfg.training.loss_type from rfl] at h
    simp [choose_loss_function, h]
  · intro h; simp [choose_loss_function, h, hsig, hsoft]
  · intro h; simp [choose_loss_function, h, hsig, hsoft]
  · simp only [List.pairwise_cons, List.mem_cons, List.not_mem_nil, or_false]
    refine ⟨?_, ?_, ?_, ⟨fun a h => h.elim, List.Pairwise.nil⟩⟩ <;> intro a ha <;>
      rcases ha with h | h | h <;> simp_all
  · intro lf hlf
    simp only [List.mem_cons, List.not_mem_nil, or_false] at hlf
    rcases hlf with h | h | h | h
    · subst h
      constructor
      · simp only [usesSigmoid]
        by_cases hx : 1 < n <;> simp [hx] <;> omega
      · simp [usesSoftmax]
    · subst h
      constructor
      · simp only [usesSigmoid]
        by_cases hx : 1 < n <;> simp [hx] <;> omega
      · simp [usesSoftmax]
    · subst h; exact ⟨rfl, rfl⟩
    · subst h; exact ⟨rfl, rfl⟩

/-- Claim C5 witness: the four equations at channel count 2, each at a
configuration carrying the matching loss-type string. -/
theorem choose_loss_function_configurations_witness :
    choose_loss_function 2 ⟨⟨none, none, none, none, "dynDiceCELoss"⟩, ⟨none⟩⟩ =
        .ok (.diceCE false 1)
    ∧ choose_loss_function 2
        ⟨⟨none, none, none, none, "dynDiceCELoss_batch"⟩, ⟨none⟩⟩ =
        .ok (.diceCE true 1)
    ∧ choose_loss_function 2 ⟨⟨none, none, none, none, "Batch_Dice"⟩, ⟨none⟩⟩ =
        .ok (.diceLossExtended false true (1 / 100000) (1 / 100000) false true)
    ∧ choose_loss_function 2 ⟨⟨none, none, none, none, "Dice_Only"⟩, ⟨none⟩⟩ =
        .ok (.diceLossExtended false true 0 0 false false) := by
  refine ⟨?_, ?_, ?_, ?_⟩
  · exact (choose_loss_function_configurations 2
      ⟨⟨none, none, none, none, "dynDiceCELoss"⟩, ⟨none⟩⟩ (by decide)).1 rfl
  · exact (choose_loss_function_configurations 2
      ⟨⟨none, none, none, none, "dynDiceCELoss_batch"⟩, ⟨none⟩⟩ (by decide)).2.1 rfl
  · exact (choose_loss_function_configurations 2
      ⟨⟨none, none, none, none, "Batch_Dice"⟩, ⟨none⟩⟩ (by decide)).2.2.1 rfl
  · exact (choose_loss_function_configurations 2
      ⟨⟨none, none, none, none, "Dice_Only"⟩, ⟨none⟩⟩ (by decide)).2.2.2.1 rfl

/-! ## Lemmas on the deep-supervision loss -/

theorem zip_self_map {T U : Type} (g : T → U) :
    ∀ ps : List T, ps.zip (ps.map g) = ps.map (fun x => (x, g x))
  | [] => rfl
  | x :: xs => by simp [List.zip_cons_cons, zip_self_map g xs]

/-- Summing the enumerated weighted losses from index `k` onward equals the
indexed sum with exponents shifted by `k`. -/
theorem sum_pow_enumFrom {T : Type} (lossF : T → T → ℚ) (g : T → T) :
    ∀ (ps : List T) (k : ℕ),
    (((ps.map (fun x => (x, g x))).enumFrom k).map
        (fun ip => (1 / 2 : ℚ) ^ ip.1 * lossF ip.2.1 ip.2.2)).sum
      = ∑ i : Fin ps.length,
          (1 / 2 : ℚ) ^ (k + (i : ℕ)) * lossF (ps.get i) (g (ps.get i)) := by
  intro ps
  induction ps with
  | nil => intro k; simp
  | cons x xs ih =>
    intro k
    simp only [List.map_cons, List.enumFrom_cons, List.sum_cons, List.length_cons]
    rw [ih (k + 1), Fin.sum_univ_succ]
    simp only [Fin.val_zero, Nat.add_zero, List.get, Fin.val_succ]
    congr 1
    refine Finset.sum_congr rfl (fun i _ => ?_)
    rw [show k + ((i : ℕ) + 1) = k + 1 + (i : ℕ) by omega]

/-- Claim C2: the training loss of `DynUNetTrainer._iteration` on prediction
heads `p :: ps` is the sum over head indices `i` of `0.5 ^ i` times the loss of
head `i` against its target — the unresized label for head 0, the label
interpolated to the head's spatial shape for the rest; with three heads this is
`loss(p0, l) + 0.5 * loss(p1, l1) + 0.25 * loss(p2, l2)`. -/
theorem trainer_deep_supervision_loss (T : Type) (lossF : T → T → ℚ)
    (interpolate2 : T → List ℕ → T) (shape2 : T → List ℕ)
    (p : T) (ps : List T) (label : T) :
    (compute_loss lossF interpolate2 shape2 (p :: ps) label =
        ∑ i : Fin (ps.length + 1),
          (1 / 2 : ℚ) ^ (i : ℕ) *
            lossF ((p :: ps).get i)
              (if (i : ℕ) = 0 then label
               else interpolate2 label (shape2 ((p :: ps).get i))))
    ∧ ∀ p0 p1 p2 : T,
        compute_loss lossF interpolate2 shape2 [p0, p1, p2] label =
          lossF p0 label
            + (1 / 2) * lossF p1 (interpolate2 label (shape2 p1))
            + (1 / 4) * lossF p2 (interpolate2 label (shape2 p2)) := by
  constructor
  · simp only [compute_loss, List.drop_succ_cons, List.drop_zero,
      List.zip_cons_cons, List.enum_cons, List.map_cons, List.sum_cons,
      pow_zero, one_mul]
    rw [zip_self_map, sum_pow_enumFrom, Fin.sum_univ_succ]
    simp only [Fin.val_zero, pow_zero, one_mul, Fin.val_succ, List.get_cons_succ]
    norm_num
    refine Finset.sum_congr rfl (fun i _ => ?_)
    rw [show 1 + (i : ℕ) = (i : ℕ) + 1 by omega]
  · intro p0 p1 p2
    simp only [compute_loss, List.drop_succ_cons, List.drop_zero,
      List.map_cons, List.map_nil, List.zip_cons_cons, List.zip_nil_right,
      List.enum_cons, List.enumFrom_cons, List.enumFrom_nil, List.sum_cons,
      List.sum_nil]
    norm_num
    ring

/-! ## Lemmas on the flip-ensemble evaluator -/

/-- Claim C7: the evaluator prediction is the average of exactly four
inference results — the plain input and its three flips, each auxiliary
prediction flipped back along the same dimensions — and flipping back along
the same dimensions restores every in-range entry. -/
theorem evaluator_flip_ensemble (inferer : Tensor4 → Tensor4) (n2 n3 : ℕ)
    (x t : Tensor4) (b c i j : ℕ) :
    (evaluator_iteration inferer n2 n3 x b c i j =
        (inferer x b c i j
          + flipDim2 n2 (inferer (flipDim2 n2 x)) b c i j
          + flipDim3 n3 (inferer (flipDim3 n3 x)) b c i j
          + flipDim23 n2 n3 (inferer (flipDim23 n2 n3 x)) b c i j) / 4)
    ∧ (i < n2 → flipDim2 n2 (flipDim2 n2 t) b c i j = t b c i j)
    ∧ (j < n3 → flipDim3 n3 (flipDim3 n3 t) b c i j = t b c i j)
    ∧ (i < n2 → j < n3 →
        flipDim23 n2 n3 (flipDim23 n2 n3 t) b c i j = t b c i j) := by
  refine ⟨rfl, ?_, ?_, ?_⟩
  · intro hi
    simp only [flipDim2]
    rw [show n2 - 1 - (n2 - 1 - i) = i by omega]
  · intro hj
    simp only [flipDim3]
    rw [show n3 - 1 - (n3 - 1 - j) = j by omega]
  · intro hi hj
    simp only [flipDim23]
    rw [show n2 - 1 - (n2 - 1 - i) = i by omega,
        show n3 - 1 - (n3 - 1 - j) = j by omega]

/-- Claim C7 witness: the ensemble identity and both flip-back identities at a
concrete inferer, extents and index. -/
theorem evaluator_flip_ensemble_witness :
    (evaluator_iteration (fun t => t) 2 2 (fun _ _ _ _ => 0) 0 0 1 1 =
        ((fun _ _ _ _ => (0 : ℚ)) 0 0 1 1
          + flipDim2 2 (flipDim2 2 (fun _ _ _ _ => 0)) 0 0 1 1
          + flipDim3 2 (flipDim3 2 (fun _ _ _ _ => 0)) 0 0 1 1
          + flipDim23 2 2 (flipDim23 2 2 (fun _ _ _ _ => 0)) 0 0 1 1) / 4)
    ∧ flipDim2 2 (flipDim2 2 (fun _ _ _ _ => (1 : ℚ))) 0 0 1 1 =
        (fun _ _ _ _ => (1 : ℚ)) 0 0 1 1
    ∧ flipDim3 2 (flipDim3 2 (fun _ _ _ _ => (1 : ℚ))) 0 0 1 1 =
        (fun _ _ _ _ => (1 : ℚ)) 0 0 1 1
    ∧ flipDim23 2 2 (flipDim23 2 2 (fun _ _ _ _ => (1 : ℚ))) 0 0 1 1 =
        (fun _ _ _ _ => (1 : ℚ)) 0 0 1 1 := by
  have h := evaluator_flip_ensemble (fun t => t) 2 2 (fun _ _ _ _ => 0)
    (fun _ _ _ _ => 1) 0 0 1 1
  exact ⟨h.1, h.2.1 (by decide), h.2.2.1 (by decide),
    h.2.2.2 (by decide) (by decide)⟩

/-! ## Lemmas on the kernel/stride schedule derivation -/

theorem zipWith_pair {α β γ : Type} (f : α → β → γ) (a0 a1 : α) (b0 b1 : β) :
    List.zipWith f [a0, a1] [b0, b1] = [f a0 b0, f a1 b1] := rfl

theorem strideOf_pair (sp0 sp1 s0 s1 : ℚ) :
    strideOf [sp0, sp1] [s0, s1] =
      [if sp0 / min sp0 sp1 ≤ 2 ∧ s0 ≥ 8 then 2 else 1,
       if sp1 / min sp0 sp1 ≤ 2 ∧ s1 ≥ 8 then 2 else 1] := rfl

theorem kernelOf_pair (sp0 sp1 : ℚ) :
    kernelOf [sp0, sp1] =
      [if sp0 / min sp0 sp1 ≤ 2 then 3 else 1,
       if sp1 / min sp0 sp1 ≤ 2 then 3 else 1] := rfl

/-- Every entry the loop body puts into a stride is 1 or 2. -/
theorem strideOf_mem (spacings sizes : List ℚ) (x : ℕ)
    (hx : x ∈ strideOf spacings sizes) : x = 1 ∨ x = 2 := by
  simp only [strideOf, List.mem_map] at hx
  obtain ⟨rs, -, hrs⟩ := hx
  split at hrs
  · exact Or.inr hrs.symm
  · exact Or.inl hrs.symm

/-- Every entry the loop body puts into a kernel is 1 or 3. -/
theorem kernelOf_mem (spacings : List ℚ) (x : ℕ)
    (hx : x ∈ kernelOf spacings) : x = 1 ∨ x = 3 := by
  simp only [kernelOf, List.mem_map] at hx
  obtain ⟨r, -, hr⟩ := hx
  split at hr
  · exact Or.inr hr.symm
  · exact Or.inl hr.symm

/-- Whatever the loop returns on a two-axis input extends its accumulators by
a trace of the specification's per-level rule. -/
theorem deriveLoop_spec :
    ∀ (fuel : ℕ) (sp0 sp1 s0 s1 : ℚ) (a b : List (List ℕ))
      (spFin : List ℚ) (st ks : List (List ℕ)),
    deriveLoop fuel [sp0, sp1] [s0, s1] a b = some (spFin, st, ks) →
    spFin.length = 2 ∧ ∃ st' ks', st = a ++ st' ∧ ks = b ++ ks' ∧
      SpecSchedule sp0 sp1 s0 s1 st' ks' := by
  intro fuel
  induction fuel with
  | zero =>
    intro sp0 sp1 s0 s1 a b spFin st ks h
    simp [deriveLoop] at h
  | succ n ih =>
    intro sp0 sp1 s0 s1 a b spFin st ks h
    simp only [deriveLoop, strideOf_pair, kernelOf_pair] at h
    by_cases h0 : sp0 / min sp0 sp1 ≤ 2 ∧ s0 ≥ 8 <;>
      by_cases h1 : sp1 / min sp0 sp1 ≤ 2 ∧ s1 ≥ 8
    · simp only [if_pos h0, if_pos h1] at h
      rw [if_neg (by decide)] at h
      simp only [zipWith_pair] at h
      obtain ⟨hlen, st', ks', hst, hks, hspec⟩ := ih _ _ _ _ _ _ _ _ _ h
      exact ⟨hlen, [2, 2] :: st',
        [if sp0 / min sp0 sp1 ≤ 2 then 3 else 1,
         if sp1 / min sp0 sp1 ≤ 2 then 3 else 1] :: ks',
        by simp [hst], by simp [hks],
        SpecSchedule.level sp0 sp1 s0 s1 2 2 _ _ st' ks'
          (by rw [if_pos h0]) (by rw [if_pos h1]) rfl rfl (by decide) hspec⟩
    · simp only [if_pos h0, if_neg h1] at h
      rw [if_neg (by decide)] at h
      simp only [zipWith_pair] at h
      obtain ⟨hlen, st', ks', hst, hks, hspec⟩ := ih _ _ _ _ _ _ _ _ _ h
      exact ⟨hlen, [2, 1] :: st',
        [if sp0 / min sp0 sp1 ≤ 2 then 3 else 1,
         if sp1 / min sp0 sp1 ≤ 2 then 3 else 1] :: ks',
        by simp [hst], by simp [hks],
        SpecSchedule.level sp0 sp1 s0 s1 2 1 _ _ st' ks'
          (by rw [if_pos h0]) (by rw [if_neg h1]) rfl rfl (by decide) hspec⟩
    · simp only [if_neg h0, if_pos h1] at h
      rw [if_neg (by decide)] at h
      simp only [zipWith_pair] at h
      obtain ⟨hlen, st', ks', hst, hks, hspec⟩ := ih _ _ _ _ _ _ _ _ _ h
      exact ⟨hlen, [1, 2] :: st',
        [if sp0 / min sp0 sp1 ≤ 2 then 3 else 1,
         if sp1 / min sp0 sp1 ≤ 2 then 3 else 1] :: ks',
        by simp [hst], by simp [hks],
        SpecSchedule.level sp0 sp1 s0 s1 1 2 _ _ st' ks'
          (by rw [if_neg h0]) (by rw [if_pos h1]) rfl rfl (by decide) hspec⟩
    · simp only [if_neg h0, if_neg h1] at h
      rw [if_pos (by decide)] at h
      obtain ⟨h2, h3, h4⟩ : [sp0, sp1] = spFin ∧ a = st ∧ b = ks := by
        simpa using h
      subst h2; subst h3; subst h4
      exact ⟨rfl, [], [], by simp, by simp,
        SpecSchedule.stop sp0 sp1 s0 s1 (by rw [if_neg h0]) (by rw [if_neg h1])⟩

/-- On strictly positive two-axis inputs the loop finishes once the fuel
covers a quarter of the total size: every non-breaking iteration halves at
least one size that was at least 8, so the size total drops by at least 4. -/
theorem deriveLoop_total :
    ∀ (fuel : ℕ) (sp0 sp1 s0 s1 : ℚ) (a b : List (List ℕ)),
    0 < sp0 → 0 < sp1 → 0 < s0 → 0 < s1 → s0 + s1 ≤ 4 * (fuel : ℚ) →
    (deriveLoop fuel [sp0, sp1] [s0, s1] a b).isSome = true := by
  intro fuel
  induction fuel with
  | zero =>
    intro sp0 sp1 s0 s1 a b hp0 hp1 hs0 hs1 hsum
    exfalso
    norm_num at hsum
    linarith
  | succ n ih =>
    intro sp0 sp1 s0 s1 a b hp0 hp1 hs0 hs1 hsum
    simp only [deriveLoop, strideOf_pair, kernelOf_pair]
    by_cases h0 : sp0 / min sp0 sp1 ≤ 2 ∧ s0 ≥ 8 <;>
      by_cases h1 : sp1 / min sp0 sp1 ≤ 2 ∧ s1 ≥ 8
    · simp only [if_pos h0, if_pos h1]
      rw [if_neg (by decide)]
      simp only [zipWith_pair]
      apply ih
      · positivity
      · positivity
      · positivity
      · positivity
      · push_cast at hsum ⊢
        have h8a := h0.2
        have h8b := h1.2
        linarith
    · simp only [if_pos h0, if_neg h1]
      rw [if_neg (by decide)]
      simp only [zipWith_pair]
      apply ih
      · positivity
      · positivity
      · positivity
      · positivity
      · push_cast at hsum ⊢
        have h8a := h0.2
        rw [div_one]
        linarith
    · simp only [if_neg h0, if_pos h1]
      rw [if_neg (by decide)]
      simp only [zipWith_pair]
      apply ih
      · positivity
      · positivity
      · positivity
      · positivity
      · push_cast at hsum ⊢
        have h8b := h1.2
        rw [div_one]
        linarith
    · simp only [if_neg h0, if_neg h1]
      rw [if_pos (by decide)]
      rfl

/-- Whatever the loop returns extends its accumulators in lockstep with
stride entries in {1, 2} and kernel entries in {1, 3}. -/
theorem deriveLoop_shape :
    ∀ (fuel : ℕ) (spacings sizes : List ℚ) (a b : List (List ℕ))
      (spFin : List ℚ) (st ks : List (List ℕ)),
    deriveLoop fuel spacings sizes a b = some (spFin, st, ks) →
    ∃ st' ks', st = a ++ st' ∧ ks = b ++ ks' ∧ st'.length = ks'.length ∧
      (∀ s ∈ st', ∀ x ∈ s, x = 1 ∨ x = 2) ∧
      (∀ k ∈ ks', ∀ x ∈ k, x = 1 ∨ x = 3) := by
  intro fuel
  induction fuel with
  | zero =>
    intro spacings sizes a b spFin st ks h
    simp [deriveLoop] at h
  | succ n ih =>
    intro spacings sizes a b spFin st ks h
    simp only [deriveLoop] at h
    by_cases hall : (strideOf spacings sizes).all (fun s => s == 1) = true
    · rw [if_pos hall] at h
      obtain ⟨h1, h2, h3⟩ : spacings = spFin ∧ a = st ∧ b = ks := by simpa using h
      subst h2; subst h3
      exact ⟨[], [], by simp, by simp, rfl, by simp, by simp⟩
    · rw [if_neg hall] at h
      obtain ⟨st', ks', hst, hks, hlen, hstm, hksm⟩ := ih _ _ _ _ _ _ _ h
      refine ⟨strideOf spacings sizes :: st', kernelOf spacings :: ks',
        by simp [hst], by simp [hks], by simp [hlen], ?_, ?_⟩
      · intro s hs x hx
        rcases List.mem_cons.mp hs with h' | h'
        · subst h'
          exact strideOf_mem _ _ _ hx
        · exact hstm s h' x hx
      · intro k hk x hx
        rcases List.mem_cons.mp hk with h' | h'
        · subst h'
          exact kernelOf_mem _ _ hx
        · exact hksm k h' x hx

/-- Claim C10: whenever the derivation loop terminates, the final stride and
kernel lists have equal length (at least one), every stride entry is 1 or 2,
and every kernel entry is 1 or 3 — the shape contract the `DynUNet`
constructor requires. -/
theorem schedule_shape_contract (fuel : ℕ) (spacing inplane_size : List ℚ)
    (st ks : List (List ℕ))
    (h : run_training_schedule fuel spacing inplane_size = some (st, ks)) :
    st.length = ks.length ∧ 1 ≤ st.length ∧
      (∀ s ∈ st, ∀ x ∈ s, x = 1 ∨ x = 2) ∧
      (∀ k ∈ ks, ∀ x ∈ k, x = 1 ∨ x = 3) := by
  simp only [run_training_schedule] at h
  obtain ⟨⟨spFin, st0, ks0⟩, hout, hmap⟩ := Option.map_eq_some'.mp h
  obtain ⟨st', ks', hst, hks, hlen, hstm, hksm⟩ := deriveLoop_shape _ _ _ _ _ _ _ _ hout
  simp only [List.nil_append] at hst hks
  subst hst; subst hks
  cases hmap
  refine ⟨by simp [hlen], by simp, ?_, ?_⟩
  · intro s hs x hx
    rcases List.mem_cons.mp hs with h' | h'
    · subst h'
      exact Or.inl (List.eq_of_mem_replicate hx)
    · exact hstm s h' x hx
  · intro k hk x hx
    rcases List.mem_append.mp hk with h' | h'
    · exact hksm k h' x hx
    · rw [List.mem_singleton.mp h'] at hx
      exact Or.inr (List.eq_of_mem_replicate hx)

/-- Claim C10 witness: the shape contract at the isotropic 64×64 input. -/
theorem schedule_shape_contract_witness :
    ([[1,1],[2,2],[2,2],[2,2],[2,2]] : List (List ℕ)).length =
        ([[3,3],[3,3],[3,3],[3,3],[3,3]] : List (List ℕ)).length
    ∧ 1 ≤ ([[1,1],[2,2],[2,2],[2,2],[2,2]] : List (List ℕ)).length
    ∧ (∀ s ∈ ([[1,1],[2,2],[2,2],[2,2],[2,2]] : List (List ℕ)),
        ∀ x ∈ s, x = 1 ∨ x = 2)
    ∧ (∀ k ∈ ([[3,3],[3,3],[3,3],[3,3],[3,3]] : List (List ℕ)),
        ∀ x ∈ k, x = 1 ∨ x = 3) :=
  schedule_shape_contract 16 [1, 1] [64, 64] _ _
    (by norm_num [run_training_schedule, deriveLoop, strideOf, kernelOf,
      listMin, min_def, List.replicate])

/-- Claim C8: on every pair of strictly positive spacings and strictly
positive sizes the derivation loop terminates — some finite fuel makes the
embedded loop return a result. -/
theorem schedule_loop_terminates (sp0 sp1 s0 s1 : ℚ)
    (hp0 : 0 < sp0) (hp1 : 0 < sp1) (hs0 : 0 < s0) (hs1 : 0 < s1) :
    ∃ fuel st ks,
      run_training_schedule fuel [sp0, sp1] [s0, s1] = some (st, ks) := by
  have hc0 : (0 : ℤ) ≤ ⌈s0 + s1⌉ := Int.ceil_nonneg (by linarith)
  have h3 : ((⌈s0 + s1⌉.toNat : ℕ) : ℚ) = ((⌈s0 + s1⌉ : ℤ) : ℚ) := by
    exact_mod_cast Int.toNat_of_nonneg hc0
  have hceil : s0 + s1 ≤ 4 * ((⌈s0 + s1⌉.toNat : ℕ) : ℚ) := by
    have h1 : s0 + s1 ≤ ((⌈s0 + s1⌉ : ℤ) : ℚ) := Int.le_ceil _
    have h4 : (0 : ℚ) ≤ ((⌈s0 + s1⌉.toNat : ℕ) : ℚ) := by positivity
    rw [h3] at h4 ⊢
    linarith
  have hsome := deriveLoop_total (⌈s0 + s1⌉.toNat) sp0 sp1 s0 s1 [] []
    hp0 hp1 hs0 hs1 hceil
  have hsome' : (run_training_schedule (⌈s0 + s1⌉.toNat)
      [sp0, sp1] [s0, s1]).isSome = true := by
    simp only [run_training_schedule, List.cons_append, List.nil_append,
      List.take_succ_cons, List.take_zero, Option.isSome_map']
    exact hsome
  obtain ⟨v, hv⟩ := Option.isSome_iff_exists.mp hsome'
  exact ⟨⌈s0 + s1⌉.toNat, v.1, v.2, by rw [hv]⟩

/-- Claim C8 witness: termination at spacing `[1, 1]`, size `[64, 64]`. -/
theorem schedule_loop_terminates_witness :
    ∃ fuel st ks,
      run_training_schedule fuel [(1 : ℚ), 1] [64, 64] = some (st, ks) :=
  schedule_loop_terminates 1 1 64 64 (by norm_num) (by norm_num)
    (by norm_num) (by norm_num)

/-- Claim C1: (i) whenever the loop terminates on strictly positive two-axis
inputs, the output is an all-ones stride prepended to, and an all-threes
kernel appended to, a trace of the specification's per-level rule
(`SpecSchedule`); (ii) for spacing `[1, 1]` and size `[64, 64]` it terminates
with a non-empty stride list headed by `[1, 1]`, entries among
`[1,1]`, `[2,1]`, `[1,2]`, `[2,2]`, a kernel list exactly one longer than the
strides excluding the prepended one, ending in `[3, 3]`; (iii) for anisotropic
spacing `[1, 3]` the first level is asymmetric: the axis with spacing quotient
`3 > 2` receives stride 1 and kernel 1 while the other axis receives stride
2 and kernel 3. -/
theorem run_training_schedule_rule :
    (∀ (fuel : ℕ) (sp0 sp1 s0 s1 : ℚ) (st ks : List (List ℕ)),
        0 < sp0 → 0 < sp1 → 0 < s0 → 0 < s1 →
        run_training_schedule fuel [sp0, sp1] [s0, s1] = some (st, ks) →
        ∃ st' ks', st = [1, 1] :: st' ∧ ks = ks' ++ [[3, 3]] ∧
          SpecSchedule sp0 sp1 s0 s1 st' ks')
    ∧ (run_training_schedule 16 [1, 1] [64, 64] =
          some ([[1,1],[2,2],[2,2],[2,2],[2,2]],
                [[3,3],[3,3],[3,3],[3,3],[3,3]])
        ∧ ([[1,1],[2,2],[2,2],[2,2],[2,2]] : List (List ℕ)) ≠ []
        ∧ ([[1,1],[2,2],[2,2],[2,2],[2,2]] : List (List ℕ)).head? = some [1, 1]
        ∧ (∀ s ∈ ([[1,1],[2,2],[2,2],[2,2],[2,2]] : List (List ℕ)),
            s = [1,1] ∨ s = [2,1] ∨ s = [1,2] ∨ s = [2,2])
        ∧ ([[3,3],[3,3],[3,3],[3,3],[3,3]] : List (List ℕ)).length =
            (([[1,1],[2,2],[2,2],[2,2],[2,2]] : List (List ℕ)).length - 1) + 1
        ∧ ([[3,3],[3,3],[3,3],[3,3],[3,3]] : List (List ℕ)).getLast? =
            some [3, 3])
    ∧ (strideOf [1, 3] [64, 64] = [2, 1] ∧ kernelOf [1, 3] = [3, 1]
        ∧ 2 < (3 : ℚ) / listMin [1, 3] ∧ (1 : ℚ) / listMin [1, 3] ≤ 2) := by
  refine ⟨?_, ⟨?_, by decide, by decide, by decide, by decide, by decide⟩,
    ⟨?_, ?_, ?_, ?_⟩⟩
  · intro fuel sp0 sp1 s0 s1 st ks hp0 hp1 hs0 hs1 h
    simp only [run_training_schedule, List.cons_append, List.nil_append,
      List.take_succ_cons, List.take_zero] at h
    obtain ⟨⟨spFin, st0, ks0⟩, hout, hmap⟩ := Option.map_eq_some'.mp h
    obtain ⟨hlen, st', ks', hst, hks, hspec⟩ :=
      deriveLoop_spec _ _ _ _ _ _ _ _ _ _ hout
    simp only [List.nil_append] at hst hks
    cases hmap
    rw [hlen]
    exact ⟨st', ks', by simp [hst, List.replicate],
      by simp [hks, List.replicate], hspec⟩
  · norm_num [run_training_schedule, deriveLoop, strideOf, kernelOf,
      listMin, min_def, List.replicate]
  · norm_num [strideOf, listMin, min_def]
  · norm_num [kernelOf, listMin, min_def]
  · norm_num [listMin, min_def]
  · norm_num [listMin, min_def]

/-- Claim C1 witness: part (i) applied to the isotropic 64×64 run. -/
theorem run_training_schedule_rule_witness :
    ∃ st' ks',
      ([[1,1],[2,2],[2,2],[2,2],[2,2]] : List (List ℕ)) = [1, 1] :: st'
      ∧ ([[3,3],[3,3],[3,3],[3,3],[3,3]] : List (List ℕ)) = ks' ++ [[3, 3]]
      ∧ SpecSchedule 1 1 64 64 st' ks' :=
  run_training_schedule_rule.1 16 1 1 64 64
    [[1,1],[2,2],[2,2],[2,2],[2,2]] [[3,3],[3,3],[3,3],[3,3],[3,3]]
    (by norm_num) (by norm_num) (by norm_num) (by norm_num)
    (by norm_num [run_training_schedule, deriveLoop, strideOf, kernelOf,
      listMin, min_def, List.replicate])

end MonaiFbs
